import Mathlib

/-!
Verification of the netcanv test-orchestration harness (`contrib/run.py`).

The harness builds the application, launches a host process, scans the host's
stderr for lines announcing a free room ID, spawns a joiner process for each
announced ID, relays every line to the console with a colored role label, and
finally awaits all joiner tasks.

The Python source is shallowly embedded below: strings are `List Char`,
one `readline().decode()` result is a `Chunk` (`none` models bytes that fail
to decode), and each coroutine is a pure function from its input chunks to
the trace of observable events it performs, plus a flag telling whether it
completed normally (`true`) or raised an exception (`false`).
-/

/-- The characters Python's `str.strip()` removes by default (ASCII range). -/
def isSpaceChar (c : Char) : Bool :=
  c = ' ' || c = '\t' || c = '\n' || c = '\r' || c = '\x0b' || c = '\x0c'

/-- Python `str.strip()`: drop whitespace from both ends. -/
def strip (s : List Char) : List Char :=
  ((s.dropWhile isSpaceChar).reverse.dropWhile isSpaceChar).reverse

/-- `startsWith pat s` holds when `pat` is a leading segment of `s`. -/
def startsWith : List Char → List Char → Bool
  | [], _ => true
  | _ :: _, [] => false
  | p :: ps, c :: cs => (p == c) && startsWith ps cs

/-- The suffix of `s` that follows the first occurrence of `pat`, if any.
Models the second component of Python's `s.split(pat, 1)`: `none` means the
pattern is absent, in which case indexing `[1]` in the source raises
`IndexError`. -/
def findRest (pat : List Char) : List Char → Option (List Char)
  | [] => if startsWith pat [] then some [] else none
  | c :: cs =>
    if startsWith pat (c :: cs) then some ((c :: cs).drop pat.length)
    else findRest pat cs

/-- Models Python's `s.find(pat) != -1`, i.e. substring containment. -/
def containsSub (pat s : List Char) : Bool := (findRest pat s).isSome

/-- The trigger marker the host loop scans for (`run.py` line 38). -/
def markerStr : List Char := "got free room ID".data

/-- The separator in front of the room ID (`run.py` line 39). -/
def rColon : List Char := "r:".data

/-- The token extraction performed by the host loop on a line: if the line
contains the trigger marker, take everything after the first `r:` in the
line and strip it (`line.split("r:", 1)[1].strip()`); `none` either because
the marker is absent or because `r:` is absent (the latter is the
`IndexError` case, distinguished in `hostLoop` below). -/
def extractToken (line : List Char) : Option (List Char) :=
  if containsSub markerStr line then (findRest rColon line).map strip else none

theorem startsWith_iff (p : List Char) : ∀ s : List Char,
    startsWith p s = true ↔ ∃ r, s = p ++ r := by
  induction p with
  | nil =>
    intro s
    constructor
    · intro _; exact ⟨s, rfl⟩
    · intro _; rfl
  | cons a ps ih =>
    intro s
    cases s with
    | nil =>
      simp only [startsWith]
      constructor
      · intro h; exact absurd h (by simp)
      · rintro ⟨r, hr⟩; exact absurd hr (by simp)
    | cons c cs =>
      simp only [startsWith, Bool.and_eq_true, beq_iff_eq]
      constructor
      · rintro ⟨rfl, h⟩
        obtain ⟨r, rfl⟩ := (ih cs).mp h
        exact ⟨r, rfl⟩
      · rintro ⟨r, hr⟩
        rw [List.cons_append] at hr
        injection hr with h1 h2
        exact ⟨h1.symm, (ih cs).mpr ⟨r, h2⟩⟩

theorem findRest_sound (pat : List Char) : ∀ s r : List Char,
    findRest pat s = some r →
    ∃ p, s = p ++ pat ++ r ∧ ∀ p' r', s = p' ++ pat ++ r' → p.length ≤ p'.length := by
  intro s
  induction s with
  | nil =>
    intro r h
    simp only [findRest] at h
    by_cases hs : startsWith pat [] = true
    · rw [if_pos hs] at h
      obtain ⟨t, ht⟩ := (startsWith_iff pat []).mp hs
      have hp : pat = [] := by
        cases pat with
        | nil => rfl
        | cons a l => simp at ht
      injection h with h
      refine ⟨[], ?_, ?_⟩
      · simp [hp, ← h]
      · intro p' r' _; simp
    · rw [if_neg hs] at h; exact absurd h (by simp)
  | cons c cs ih =>
    intro r h
    simp only [findRest] at h
    by_cases hs : startsWith pat (c :: cs) = true
    · rw [if_pos hs] at h
      obtain ⟨t, ht⟩ := (startsWith_iff pat (c :: cs)).mp hs
      injection h with h
      refine ⟨[], ?_, ?_⟩
      · have hrt : r = t := by rw [← h, ht, List.drop_left]
        simp [ht, hrt]
      · intro p' r' _; simp
    · rw [if_neg hs] at h
      obtain ⟨p, hp, hmin⟩ := ih r h
      refine ⟨c :: p, ?_, ?_⟩
      · simp [hp]
      · intro p' r' h'
        cases p' with
        | nil =>
          exfalso
          apply hs
          apply (startsWith_iff pat (c :: cs)).mpr
          refine ⟨r', ?_⟩
          simpa using h'
        | cons c' p'' =>
          have h'' : cs = p'' ++ pat ++ r' := by
            have h2 := congrArg List.tail h'
            simpa using h2
          have := hmin p'' r' h''
          simpa using Nat.succ_le_succ this

theorem findRest_none (pat : List Char) : ∀ s : List Char,
    findRest pat s = none → ∀ p r, s ≠ p ++ pat ++ r := by
  intro s
  induction s with
  | nil =>
    intro h p r heq
    have hpat : pat = [] := by
      cases pat with
      | nil => rfl
      | cons a l =>
        have hl := congrArg List.length heq
        simp only [List.length_nil, List.length_append, List.length_cons] at hl
        omega
    rw [hpat] at h
    simp [findRest, startsWith] at h
  | cons c cs ih =>
    intro h p r heq
    simp only [findRest] at h
    by_cases hs : startsWith pat (c :: cs) = true
    · rw [if_pos hs] at h; exact absurd h (by simp)
    · rw [if_neg hs] at h
      cases p with
      | nil =>
        apply hs
        apply (startsWith_iff pat (c :: cs)).mpr
        exact ⟨r, by simpa using heq⟩
      | cons c' p'' =>
        have h'' : cs = p'' ++ pat ++ r := by
          have h2 := congrArg List.tail heq
          simpa using h2
        exact ih h p'' r h''

/-! ### Constants of `run.py` (lines 6-11) -/

/-- ANSI color for host lines (`HOST_COLOR = "\033[94m"`). -/
def HOST_COLOR : List Char := "\x1b[94m".data

/-- ANSI color for client lines (`CLIENT_COLOR = "\033[93m"`). -/
def CLIENT_COLOR : List Char := "\x1b[93m".data

/-- ANSI reset (`ENDC = "\033[0m"`). -/
def ENDC : List Char := "\x1b[0m".data

/-- Default executable path (`"./target/debug/netcanv"`). -/
def debugPath : List Char := "./target/debug/netcanv".data

/-- Release executable path (`"./target/release/netcanv"`). -/
def releasePath : List Char := "./target/release/netcanv".data

/-- Role label of the host (`log("HOST", ...)`). -/
def hostWho : List Char := "HOST".data

/-- Role label of a joiner (`log("CLIENT", ...)`). -/
def clientWho : List Char := "CLIENT".data

/-! ### The Labeled Logger (`log`, lines 13-14) -/

/-- Python `str.ljust(w)`: pad on the right with spaces up to width `w`;
a string already at least `w` long is returned unchanged. -/
def pyLjust (s : List Char) (w : Nat) : List Char :=
  s ++ List.replicate (w - s.length) ' '

/-- The exact character sequence `log(who, color, line)` writes to the
console: `print(f"{color}{who.ljust(8)}{ENDC} {line}", end="")`. -/
def logOutput (who color line : List Char) : List Char :=
  color ++ pyLjust who 8 ++ ENDC ++ ' ' :: line

/-! ### Trace model of the coroutines -/

/-- One result of `(await stream.readline()).decode()`: `none` models bytes
on which `.decode()` raises `UnicodeDecodeError`; `some s` a decoded line.
End of stream (`readline` returning `b""`) is the end of the chunk list. -/
abbrev Chunk := Option (List Char)

/-- Observable events of the harness, in program order. `waitChild` would be
an `await proc.wait()`; the source never performs one, so no run emits it. -/
inductive Ev where
  | buildStep (args : List (List Char)) (code : Int)
  | spawnProc (cmd : List (List Char))
  | taskNew (id : Nat) (cmd : List (List Char))
  | read (c : Chunk)
  | readEOF
  | logCall (who color line : List Char)
  | detect (matched : Bool)
  | decodeFail
  | indexErr
  | waitChild
  | awaitTask (id : Nat)
  | done
  deriving DecidableEq, Repr

/-- Argument list of a joiner process (`run_client`, line 17):
`[executable_path, "join-room", "-r", room_id]`. -/
def clientCmd (exe tok : List Char) : List (List Char) :=
  [exe, "join-room".data, "-r".data, tok]

/-- Argument list of the host process (`run_host`, line 28):
`[executable_path, "host-room"]`. -/
def hostCmd (exe : List Char) : List (List Char) :=
  [exe, "host-room".data]

/-- The stderr read loop of `run_client` (lines 20-24): read, stop on an
empty line (closed stream), log every non-empty line. Returns the event
trace and `true` for normal completion, `false` when `.decode()` raised. -/
def clientLoop : List Chunk → List Ev × Bool
  | [] => ([Ev.readEOF], true)
  | none :: _ => ([Ev.read none, Ev.decodeFail], false)
  | some line :: rest =>
    if line = [] then ([Ev.read (some [])], true)
    else
      let out := clientLoop rest
      (Ev.read (some line) :: Ev.logCall clientWho CLIENT_COLOR line :: out.1, out.2)

/-- `run_client(room_id)` (lines 16-24): spawn the joiner process, then
drain its stderr. The coroutine returns (its task resolves) as soon as the
loop ends; the source never awaits the process's exit. -/
def runClient (exe tok : List Char) (chunks : List Chunk) : List Ev × Bool :=
  (Ev.spawnProc (clientCmd exe tok) :: (clientLoop chunks).1, (clientLoop chunks).2)

/-- The stderr read loop of `run_host` (lines 32-40). Per line, in source
order: read and decode, break on empty, `log(...)`, then test
`line.find("got free room ID") != -1`; on a match, `line.split("r:", 1)[1]`
(raising `IndexError` when `r:` is absent) is stripped and a
`run_client` task is created and appended. State: `nid` is the next task
id, `tasks` the accumulated task list. Returns the loop's event trace, the
final task list, and whether the loop ended normally. -/
def hostLoop (exe : List Char) : List Chunk → Nat → List Nat → List Ev × List Nat × Bool
  | [], _, tasks => ([Ev.readEOF], tasks, true)
  | none :: _, _, tasks => ([Ev.read none, Ev.decodeFail], tasks, false)
  | some line :: rest, nid, tasks =>
    if line = [] then ([Ev.read (some [])], tasks, true)
    else if containsSub markerStr line then
      match findRest rColon line with
      | none =>
        ([Ev.read (some line), Ev.logCall hostWho HOST_COLOR line, Ev.detect true,
          Ev.indexErr], tasks, false)
      | some restTok =>
        let out := hostLoop exe rest (nid + 1) (tasks ++ [nid])
        (Ev.read (some line) :: Ev.logCall hostWho HOST_COLOR line :: Ev.detect true ::
           Ev.taskNew nid (clientCmd exe (strip restTok)) :: out.1, out.2)
    else
      let out := hostLoop exe rest nid tasks
      (Ev.read (some line) :: Ev.logCall hostWho HOST_COLOR line :: Ev.detect false :: out.1,
       out.2)

/-- `run_host()` (lines 26-45): spawn the host process, drain its stderr via
the loop, then `await asyncio.gather(*tasks)` — one await per appended task,
in order — and return. When the loop raised, the gather line is never
reached and the coroutine ends abnormally (no `done`, no awaits). -/
def runHost (exe : List Char) (chunks : List Chunk) : List Ev × Bool :=
  (Ev.spawnProc (hostCmd exe) ::
     (if (hostLoop exe chunks 0 []).2.2 then
        (hostLoop exe chunks 0 []).1
          ++ ((hostLoop exe chunks 0 []).2.1.map Ev.awaitTask ++ [Ev.done])
      else (hostLoop exe chunks 0 []).1),
   (hostLoop exe chunks 0 []).2.2)

/-- Dropping a leading `"--"` from the passthrough arguments (lines 49-50). -/
def stripDashes (rest : List (List Char)) : List (List Char) :=
  match rest with
  | r :: t => if r = "--".data then t else rest
  | [] => []

/-- Executable selection (lines 51-52): `--release` among the passthrough
arguments selects the release path, else the debug path. -/
def pickExe (rest2 : List (List Char)) : List Char :=
  if "--release".data ∈ rest2 then releasePath else debugPath

/-- The `__main__` block (lines 47-54): strip `"--"`, pick the executable,
run `subprocess.run(["cargo", "build", *rest])` — whose exit status
`buildCode` is never inspected — then `asyncio.run(run_host())`. The
harness's own exit status is `0` on normal completion of `run_host` and
`1` when it raised; `buildCode` does not enter into it. -/
def mainRun (rest : List (List Char)) (buildCode : Int) (chunks : List Chunk) :
    List Ev × Int :=
  (Ev.buildStep ("cargo".data :: "build".data :: stripDashes rest) buildCode
     :: (runHost (pickExe (stripDashes rest)) chunks).1,
   if (runHost (pickExe (stripDashes rest)) chunks).2 then 0 else 1)

/-! ### Trace projections -/

/-- Ids of the `run_client` tasks created along a trace, in creation order. -/
def taskIds : List Ev → List Nat
  | [] => []
  | Ev.taskNew i _ :: tr => i :: taskIds tr
  | _ :: tr => taskIds tr

/-- Argument lists of the joiner tasks created along a trace, in order. -/
def taskCmds : List Ev → List (List (List Char))
  | [] => []
  | Ev.taskNew _ c :: tr => c :: taskCmds tr
  | _ :: tr => taskCmds tr

/-- Ids of the tasks awaited along a trace, in await order. -/
def awaitIds : List Ev → List Nat
  | [] => []
  | Ev.awaitTask i :: tr => i :: awaitIds tr
  | _ :: tr => awaitIds tr

/-- The chunks read along a trace, in read order. -/
def readsOf : List Ev → List Chunk
  | [] => []
  | Ev.read c :: tr => c :: readsOf tr
  | _ :: tr => readsOf tr

/-- Recognizes a Labeled Logger call event. -/
def isLogEv : Ev → Bool
  | Ev.logCall _ _ _ => true
  | _ => false

/-- Recognizes an Event Detector evaluation event. -/
def isDetectEv : Ev → Bool
  | Ev.detect _ => true
  | _ => false

/-- A chunk that decodes to a non-empty line, i.e. one the read loops
process normally. -/
def goodChunk : Chunk → Bool
  | none => false
  | some [] => false
  | some (_ :: _) => true

/-- `idRange s k = [s, s+1, ..., s+k-1]`: the task ids handed out by
`hostLoop` starting at `s`. -/
def idRange : Nat → Nat → List Nat
  | _, 0 => []
  | s, k + 1 => s :: idRange (s + 1) k

/-! ### Structural lemmas about the traces -/

theorem taskIds_append (l l' : List Ev) : taskIds (l ++ l') = taskIds l ++ taskIds l' := by
  induction l with
  | nil => rfl
  | cons e tr ih => cases e <;> simp [taskIds, ih]

theorem awaitIds_append (l l' : List Ev) : awaitIds (l ++ l') = awaitIds l ++ awaitIds l' := by
  induction l with
  | nil => rfl
  | cons e tr ih => cases e <;> simp [awaitIds, ih]

theorem readsOf_append (l l' : List Ev) : readsOf (l ++ l') = readsOf l ++ readsOf l' := by
  induction l with
  | nil => rfl
  | cons e tr ih => cases e <;> simp [readsOf, ih]

theorem awaitIds_map_awaitTask (ids : List Nat) :
    awaitIds (ids.map Ev.awaitTask) = ids := by
  induction ids with
  | nil => rfl
  | cons i t ih => simp [awaitIds, ih]

theorem taskIds_map_awaitTask (ids : List Nat) :
    taskIds (ids.map Ev.awaitTask) = [] := by
  induction ids with
  | nil => rfl
  | cons i t ih => simp [taskIds, ih]

theorem readsOf_map_awaitTask (ids : List Nat) :
    readsOf (ids.map Ev.awaitTask) = [] := by
  induction ids with
  | nil => rfl
  | cons i t ih => simp [readsOf, ih]

theorem le_of_mem_idRange : ∀ (k s i : Nat), i ∈ idRange s k → s ≤ i := by
  intro k
  induction k with
  | zero => intro s i h; simp [idRange] at h
  | succ k ih =>
    intro s i h
    simp only [idRange, List.mem_cons] at h
    rcases h with rfl | h
    · exact Nat.le_refl i
    · exact Nat.le_of_succ_le (ih (s + 1) i h)

theorem idRange_nodup : ∀ (k s : Nat), (idRange s k).Nodup := by
  intro k
  induction k with
  | zero => intro s; simp [idRange]
  | succ k ih =>
    intro s
    simp only [idRange, List.nodup_cons]
    refine ⟨fun hmem => ?_, ih (s + 1)⟩
    have := le_of_mem_idRange k (s + 1) s hmem
    omega

theorem hostLoop_spec (exe : List Char) : ∀ (chunks : List Chunk) (nid : Nat) (tasks : List Nat),
    ∃ k, (hostLoop exe chunks nid tasks).2.1 = tasks ++ idRange nid k
      ∧ taskIds (hostLoop exe chunks nid tasks).1 = idRange nid k
      ∧ awaitIds (hostLoop exe chunks nid tasks).1 = []
      ∧ Ev.done ∉ (hostLoop exe chunks nid tasks).1
      ∧ Ev.waitChild ∉ (hostLoop exe chunks nid tasks).1 := by
  intro chunks
  induction chunks with
  | nil => intro nid tasks; exact ⟨0, by simp [hostLoop, taskIds, awaitIds, idRange]⟩
  | cons c rest ih =>
    intro nid tasks
    cases c with
    | none => exact ⟨0, by simp [hostLoop, taskIds, awaitIds, idRange]⟩
    | some line =>
      by_cases hl : line = []
      · subst hl; exact ⟨0, by simp [hostLoop, taskIds, awaitIds, idRange]⟩
      · cases hm : containsSub markerStr line with
        | false =>
          obtain ⟨k, h1, h2, h3, h4, h5⟩ := ih nid tasks
          exact ⟨k, by simp [hostLoop, hl, hm, taskIds, awaitIds, h1, h2, h3, h4, h5]⟩
        | true =>
          cases hr : findRest rColon line with
          | none =>
            exact ⟨0, by simp [hostLoop, hl, hm, hr, taskIds, awaitIds, idRange]⟩
          | some restTok =>
            obtain ⟨k, h1, h2, h3, h4, h5⟩ := ih (nid + 1) (tasks ++ [nid])
            refine ⟨k + 1, ?_, ?_, ?_, ?_, ?_⟩
            · simp [hostLoop, hl, hm, hr, h1, idRange]
            · simp [hostLoop, hl, hm, hr, taskIds, h2, idRange]
            · simp [hostLoop, hl, hm, hr, awaitIds, h3]
            · simp [hostLoop, hl, hm, hr, h4]
            · simp [hostLoop, hl, hm, hr, h5]

theorem hostLoop_reads (exe : List Char) : ∀ (chunks : List Chunk) (nid : Nat) (tasks : List Nat),
    ∃ k, readsOf (hostLoop exe chunks nid tasks).1 = chunks.take k := by
  intro chunks
  induction chunks with
  | nil => intro nid tasks; exact ⟨0, rfl⟩
  | cons c rest ih =>
    intro nid tasks
    cases c with
    | none => exact ⟨1, rfl⟩
    | some line =>
      by_cases hl : line = []
      · subst hl; exact ⟨1, rfl⟩
      · cases hm : containsSub markerStr line with
        | false =>
          obtain ⟨k, hk⟩ := ih nid tasks
          exact ⟨k + 1, by simp [hostLoop, hl, hm, readsOf, hk]⟩
        | true =>
          cases hr : findRest rColon line with
          | none => exact ⟨1, by simp [hostLoop, hl, hm, hr, readsOf]⟩
          | some restTok =>
            obtain ⟨k, hk⟩ := ih (nid + 1) (tasks ++ [nid])
            exact ⟨k + 1, by simp [hostLoop, hl, hm, hr, readsOf, hk]⟩

theorem clientLoop_no_wait : ∀ chunks : List Chunk, Ev.waitChild ∉ (clientLoop chunks).1 := by
  intro chunks
  induction chunks with
  | nil => simp [clientLoop]
  | cons c rest ih =>
    cases c with
    | none => simp [clientLoop]
    | some line =>
      by_cases hl : line = []
      · subst hl; simp [clientLoop]
      · simp [clientLoop, hl, ih]

theorem clientLoop_good : ∀ chunks : List Chunk, (∀ c ∈ chunks, goodChunk c = true) →
    (clientLoop chunks).2 = true ∧ (clientLoop chunks).1.getLast? = some Ev.readEOF := by
  intro chunks
  induction chunks with
  | nil => intro _; exact ⟨rfl, rfl⟩
  | cons c rest ih =>
    intro h
    cases c with
    | none => exact absurd (h none (by simp)) (by simp [goodChunk])
    | some line =>
      cases line with
      | nil => exact absurd (h (some []) (by simp)) (by simp [goodChunk])
      | cons a l =>
        obtain ⟨hok, hlast⟩ := ih (fun c hc => h c (by simp [hc]))
        constructor
        · simpa [clientLoop] using hok
        · have hne : (clientLoop rest).1 ≠ [] := by
            intro hnil
            rw [hnil] at hlast
            simp at hlast
          simp only [clientLoop]
          rw [if_neg (by simp)]
          rw [List.getLast?_cons_cons]
          cases hcl : (clientLoop rest).1 with
          | nil => exact absurd hcl hne
          | cons e tr =>
            rw [hcl] at hlast
            rw [List.getLast?_cons_cons]
            exact hlast

theorem runHost_no_wait (exe : List Char) (chunks : List Chunk) :
    Ev.waitChild ∉ (runHost exe chunks).1 := by
  obtain ⟨k, -, -, -, -, h5⟩ := hostLoop_spec exe chunks 0 []
  unfold runHost
  by_cases hb : (hostLoop exe chunks 0 []).2.2 = true
  · simp [hb, List.mem_append, h5]
  · simp [hb, h5]

/-! ### Concrete lines used by the claims -/

/-- A trigger line with an `r:` occurrence before the marker and another
after it. -/
def cexLine : List Char := "r: X got free room ID r: Y\n".data

/-- The spec's worked example line (§8). -/
def exLine : List Char := "... got free room ID r: ABC123 \n".data

/-- A plain trigger line carrying token `A1`. -/
def lineA : List Char := "x got free room ID r: A1\n".data

/-- A plain trigger line carrying token `B2`. -/
def lineB : List Char := "y got free room ID r: B2\n".data

/-- A line containing the trigger marker but no `r:` anywhere. -/
def noRLine : List Char := "got free room ID\n".data

/-- Modelled from the claim's words (spec §4.2 / §6): the SessionToken is the
substring following the first `r:` that occurs after the trigger marker on
the line, trimmed. To be compared with `extractToken`, the extraction the
source performs. -/
def specTokenAfterMarker (line : List Char) : Option (List Char) :=
  if containsSub markerStr line then
    (findRest markerStr line).bind fun s => (findRest rColon s).map strip
  else none

/-! ### Claim C1 -/

/-- Claim C1 counterexample: on the line `"r: X got free room ID r: Y\n"`
the trigger marker is present, and the claim (token = substring after the
first `r:` occurring after the marker, trimmed) demands the token `"Y"`,
but the source's `line.split("r:", 1)[1].strip()` splits at the first `r:`
of the whole line and yields `"X got free room ID r: Y"`. -/
theorem c1_cex :
    containsSub markerStr cexLine = true
    ∧ extractToken cexLine = some "X got free room ID r: Y".data
    ∧ specTokenAfterMarker cexLine = some "Y".data
    ∧ extractToken cexLine ≠ specTokenAfterMarker cexLine := by decide

/-- Claim C1 (amended): for every host stderr line containing the trigger
marker on which the extraction succeeds, the extracted token is the
trimmed substring following the first occurrence of `r:` anywhere on the
line (the prefix before that occurrence contains no earlier occurrence);
in particular, for `"... got free room ID r: ABC123 \n"` the token is
`"ABC123"`. -/
theorem c1_token_after_first_r_anywhere (line t : List Char)
    (hm : containsSub markerStr line = true) (ht : extractToken line = some t) :
    (∃ p r, line = p ++ rColon ++ r ∧ t = strip r
       ∧ ∀ p' r', line = p' ++ rColon ++ r' → p.length ≤ p'.length)
    ∧ extractToken exLine = some "ABC123".data := by
  constructor
  · rw [extractToken, if_pos hm] at ht
    rw [Option.map_eq_some'] at ht
    obtain ⟨r0, hr0, hstrip⟩ := ht
    obtain ⟨p, hp, hmin⟩ := findRest_sound rColon line r0 hr0
    exact ⟨p, r0, hp, hstrip.symm, hmin⟩
  · decide

/-- Witness for `c1_token_after_first_r_anywhere` at the spec's example
line. -/
theorem c1_token_after_first_r_anywhere_witness :
    (containsSub markerStr exLine = true
      ∧ extractToken exLine = some "ABC123".data)
    ∧ ((∃ p r, exLine = p ++ rColon ++ r ∧ "ABC123".data = strip r
          ∧ ∀ p' r', exLine = p' ++ rColon ++ r' → p.length ≤ p'.length)
       ∧ extractToken exLine = some "ABC123".data) :=
  ⟨⟨by decide, by decide⟩,
   c1_token_after_first_r_anywhere exLine "ABC123".data (by decide) (by decide)⟩

/-! ### Claim C2 -/

/-- Claim C2 counterexample: with the build step exiting with status 1, the
harness still launches the host process and itself exits with status 0 —
the claim demands that no process be launched and that the harness exit
with a non-zero status. -/
theorem c2_cex :
    (mainRun [] 1 []).2 = 0
    ∧ Ev.spawnProc (hostCmd debugPath) ∈ (mainRun [] 1 []).1 := by decide

/-- Claim C2 (amended): the harness runs the build step first and then
launches the host process regardless of the build's exit status; the
build's exit status is never inspected, and the harness's own exit status
is independent of it. -/
theorem c2_build_result_ignored (rest : List (List Char)) (b : Int) (chunks : List Chunk) :
    (mainRun rest b chunks).1.head? =
        some (Ev.buildStep ("cargo".data :: "build".data :: stripDashes rest) b)
    ∧ ((mainRun rest b chunks).1.drop 1).head? =
        some (Ev.spawnProc (hostCmd (pickExe (stripDashes rest))))
    ∧ (mainRun rest b chunks).2 = (mainRun rest 0 chunks).2 := by
  refine ⟨rfl, ?_, rfl⟩
  simp [mainRun, runHost]

/-! ### Claim C3 -/

/-- Claim C3 counterexample: `run_client`'s coroutine completes normally
(`true`) once its stderr stream is exhausted, without ever awaiting the
child process's exit (`waitChild` never occurs) — so stream exhaustion
alone suffices, contradicting the claim that the handle resolves only when
the process has also exited. -/
theorem c3_cex :
    (clientLoop [some "hi\n".data]).2 = true
    ∧ (clientLoop [some "hi\n".data]).1.getLast? = some Ev.readEOF
    ∧ Ev.waitChild ∉ (clientLoop [some "hi\n".data]).1 := by decide

/-- Claim C3 (amended): the supervision handle (the completion of
`run_client` / `run_host`) resolves when the child's stderr has been read
to end-of-stream; the child's exit is never awaited (neither coroutine
emits a `waitChild` event), so stream exhaustion alone suffices. -/
theorem c3_resolves_on_stream_exhaustion (chunks : List Chunk)
    (h : ∀ c ∈ chunks, goodChunk c = true) :
    Ev.waitChild ∉ (clientLoop chunks).1
    ∧ (clientLoop chunks).2 = true
    ∧ (clientLoop chunks).1.getLast? = some Ev.readEOF
    ∧ ∀ (exe : List Char) (hc : List Chunk), Ev.waitChild ∉ (runHost exe hc).1 := by
  obtain ⟨hok, hlast⟩ := clientLoop_good chunks h
  exact ⟨clientLoop_no_wait chunks, hok, hlast, fun exe hc => runHost_no_wait exe hc⟩

/-- Witness for `c3_resolves_on_stream_exhaustion` on a one-line stream. -/
theorem c3_resolves_on_stream_exhaustion_witness :
    (∀ c ∈ [some "hi\n".data], goodChunk c = true)
    ∧ (Ev.waitChild ∉ (clientLoop [some "hi\n".data]).1
       ∧ (clientLoop [some "hi\n".data]).2 = true
       ∧ (clientLoop [some "hi\n".data]).1.getLast? = some Ev.readEOF
       ∧ ∀ (exe : List Char) (hc : List Chunk), Ev.waitChild ∉ (runHost exe hc).1) :=
  ⟨by decide, c3_resolves_on_stream_exhaustion [some "hi\n".data] (by decide)⟩

/-! ### Claim C4 -/

/-- Claim C4: on a host stderr stream emitting exactly the two trigger lines
with tokens `A1` and `B2`, the run creates exactly two joiner tasks with
argument lists `<executable> join-room -r A1` and `<executable> join-room
-r B2`, in that order, and the trace ends with the await of task 0, the
await of task 1 and only then `done` — after the host stream's EOF — so the
run completes only once the host handle and both joiner handles have
resolved. `runClient` confirms that each joiner task's first action is to
spawn a joiner process with exactly that argument list. -/
theorem c4_two_joiners :
    runHost debugPath [some lineA, some lineB]
      = ([Ev.spawnProc (hostCmd debugPath),
          Ev.read (some lineA), Ev.logCall hostWho HOST_COLOR lineA, Ev.detect true,
          Ev.taskNew 0 (clientCmd debugPath "A1".data),
          Ev.read (some lineB), Ev.logCall hostWho HOST_COLOR lineB, Ev.detect true,
          Ev.taskNew 1 (clientCmd debugPath "B2".data),
          Ev.readEOF, Ev.awaitTask 0, Ev.awaitTask 1, Ev.done], true)
    ∧ (runClient debugPath "A1".data []).1.head?
        = some (Ev.spawnProc (clientCmd debugPath "A1".data))
    ∧ (runClient debugPath "B2".data []).1.head?
        = some (Ev.spawnProc (clientCmd debugPath "B2".data)) := by
  refine ⟨by decide, rfl, rfl⟩

/-! ### Claim C5 -/

/-- Claim C5 counterexample: a decode failure is not an EOF-equivalent. In
`run_client` the coroutine ends abnormally (`false`); in `run_host` a
decode failure after a trigger line leaves the spawned sibling task 0
never awaited and the final `done` never reached — the Orchestrator's
final await is aborted, contradicting the claim that the failure is local
and non-fatal. -/
theorem c5_cex :
    (clientLoop [some "a\n".data, none, some "b\n".data]).2 = false
    ∧ Ev.read (some "b\n".data) ∉ (clientLoop [some "a\n".data, none, some "b\n".data]).1
    ∧ (runHost debugPath [some lineA, none]).2 = false
    ∧ Ev.taskNew 0 (clientCmd debugPath "A1".data) ∈ (runHost debugPath [some lineA, none]).1
    ∧ Ev.awaitTask 0 ∉ (runHost debugPath [some lineA, none]).1
    ∧ Ev.done ∉ (runHost debugPath [some lineA, none]).1 := by decide

/-- Claim C5 (amended): a decoding failure does terminate that stream's
line sequence (the read loop performs no further reads), but it does so by
raising an error, not as an EOF-equivalent: the coroutine ends abnormally,
and in `run_host` the final await of the joiner tasks is skipped — so the
failure is fatal to the run rather than local to the stream. -/
theorem c5_decode_failure_fatal (exe : List Char) (rest : List Chunk) (nid : Nat)
    (tasks : List Nat) (chunks : List Chunk)
    (hc : (runHost exe chunks).2 = false) :
    hostLoop exe (none :: rest) nid tasks = ([Ev.read none, Ev.decodeFail], tasks, false)
    ∧ clientLoop (none :: rest) = ([Ev.read none, Ev.decodeFail], false)
    ∧ Ev.done ∉ (runHost exe chunks).1
    ∧ awaitIds (runHost exe chunks).1 = [] := by
  have hb : (hostLoop exe chunks 0 []).2.2 = false := by simpa [runHost] using hc
  obtain ⟨k, -, -, h3, h4, -⟩ := hostLoop_spec exe chunks 0 []
  refine ⟨rfl, rfl, ?_, ?_⟩
  · simp [runHost, hb, h4]
  · simp [runHost, hb, awaitIds, h3]

/-- Witness for `c5_decode_failure_fatal` on a host stream that
immediately fails to decode. -/
theorem c5_decode_failure_fatal_witness :
    ((runHost debugPath [none]).2 = false)
    ∧ (hostLoop debugPath [none] 0 [] = ([Ev.read none, Ev.decodeFail], [], false)
       ∧ clientLoop [none] = ([Ev.read none, Ev.decodeFail], false)
       ∧ Ev.done ∉ (runHost debugPath [none]).1
       ∧ awaitIds (runHost debugPath [none]).1 = []) :=
  ⟨by decide, c5_decode_failure_fatal debugPath [] 0 [] [none] (by decide)⟩

/-! ### Claim C6 -/

/-- Claim C6: on every run in which `run_host` completes normally, the
trace splits as a loop part `A` followed by exactly the awaits of the
created task ids (each awaited exactly once, `Nodup`) and a final `done`:
every appended task is awaited before completion, completion (`done`)
happens after all awaits, no append or read happens after the loop part —
in particular no task is appended after the host stream is exhausted, so
the final await-all sees a closed set. -/
theorem c6_tasks_awaited_once (exe : List Char) (chunks : List Chunk)
    (h : (runHost exe chunks).2 = true) :
    ∃ A ids,
      (runHost exe chunks).1 = A ++ (ids.map Ev.awaitTask ++ [Ev.done])
      ∧ taskIds A = ids
      ∧ awaitIds A = []
      ∧ taskIds (runHost exe chunks).1 = ids
      ∧ awaitIds (runHost exe chunks).1 = ids
      ∧ ids.Nodup
      ∧ readsOf (runHost exe chunks).1 = readsOf A := by
  have hb : (hostLoop exe chunks 0 []).2.2 = true := by simpa [runHost] using h
  obtain ⟨k, h1, h2, h3, h4, h5⟩ := hostLoop_spec exe chunks 0 []
  have h1' : (hostLoop exe chunks 0 []).2.1 = idRange 0 k := by simpa using h1
  refine ⟨Ev.spawnProc (hostCmd exe) :: (hostLoop exe chunks 0 []).1, idRange 0 k,
    ?_, ?_, ?_, ?_, ?_, idRange_nodup k 0, ?_⟩
  · simp [runHost, hb, h1']
  · simp [taskIds, h2]
  · simp [awaitIds, h3]
  · simp [runHost, hb, taskIds, taskIds_append, h2, taskIds_map_awaitTask]
  · simp [runHost, hb, awaitIds, awaitIds_append, h3, awaitIds_map_awaitTask, h1']
  · simp [runHost, hb, readsOf, readsOf_append, readsOf_map_awaitTask]

/-- Witness for `c6_tasks_awaited_once` on a one-trigger stream. -/
theorem c6_tasks_awaited_once_witness :
    ((runHost debugPath [some lineA]).2 = true)
    ∧ (∃ A ids,
        (runHost debugPath [some lineA]).1 = A ++ (ids.map Ev.awaitTask ++ [Ev.done])
        ∧ taskIds A = ids
        ∧ awaitIds A = []
        ∧ taskIds (runHost debugPath [some lineA]).1 = ids
        ∧ awaitIds (runHost debugPath [some lineA]).1 = ids
        ∧ ids.Nodup
        ∧ readsOf (runHost debugPath [some lineA]).1 = readsOf A) :=
  ⟨by decide, c6_tasks_awaited_once debugPath [some lineA] (by decide)⟩

/-! ### Claim C7 -/

/-- Claim C7: a non-empty host stderr line that does not contain the
trigger marker is read and logged, the detector reports no match
(`detect false`), no SessionToken is extracted, no joiner task is created
for it, and the loop continues on the rest of the stream with the task
state unchanged. -/
theorem c7_no_marker_no_match (exe line : List Char) (rest : List Chunk) (nid : Nat)
    (tasks : List Nat) (hne : line ≠ []) (hm : containsSub markerStr line = false) :
    hostLoop exe (some line :: rest) nid tasks
      = (Ev.read (some line) :: Ev.logCall hostWho HOST_COLOR line :: Ev.detect false
           :: (hostLoop exe rest nid tasks).1,
         (hostLoop exe rest nid tasks).2)
    ∧ extractToken line = none := by
  constructor
  · simp [hostLoop, hne, hm]
  · simp [extractToken, hm]

/-- Witness for `c7_no_marker_no_match` at a markerless line. -/
theorem c7_no_marker_no_match_witness :
    ("hello\n".data ≠ [] ∧ containsSub markerStr "hello\n".data = false)
    ∧ (hostLoop debugPath [some "hello\n".data] 0 []
        = (Ev.read (some "hello\n".data) :: Ev.logCall hostWho HOST_COLOR "hello\n".data
             :: Ev.detect false :: (hostLoop debugPath [] 0 []).1,
           (hostLoop debugPath [] 0 []).2)
       ∧ extractToken "hello\n".data = none) :=
  ⟨⟨by decide, by decide⟩,
   c7_no_marker_no_match debugPath "hello\n".data [] 0 [] (by decide) (by decide)⟩

/-! ### Claim C8 -/

/-- Claim C8: on a line containing the trigger marker but no `r:` anywhere,
`line.split("r:", 1)` has no second element, so the extraction's error
branch (`IndexError`) is reached after the line has been logged, the loop
ends abnormally, and the following line of the stream is never read. -/
theorem c8_missing_separator_is_error :
    containsSub markerStr noRLine = true
    ∧ findRest rColon noRLine = none
    ∧ extractToken noRLine = none
    ∧ hostLoop debugPath [some noRLine, some "next\n".data] 0 []
        = ([Ev.read (some noRLine), Ev.logCall hostWho HOST_COLOR noRLine, Ev.detect true,
            Ev.indexErr], [], false)
    ∧ Ev.read (some "next\n".data)
        ∉ (hostLoop debugPath [some noRLine, some "next\n".data] 0 []).1 := by decide

/-! ### Claim C9 -/

/-- Claim C9 counterexample: on a trigger line, the Labeled Logger call is
at position 1 of the loop trace and the Event Detector evaluation at
position 2 — the line is logged first and only then forwarded to the
detector, contradicting the claimed detector-before-logger order. -/
theorem c9_cex :
    (hostLoop debugPath [some lineA] 0 []).1.findIdx isLogEv = 1
    ∧ (hostLoop debugPath [some lineA] 0 []).1.findIdx isDetectEv = 2
    ∧ ¬((hostLoop debugPath [some lineA] 0 []).1.findIdx isDetectEv
          < (hostLoop debugPath [some lineA] 0 []).1.findIdx isLogEv) := by decide

/-- Claim C9 (amended): for each non-empty host stderr line the loop emits,
in order, the read of the line, the Labeled Logger call, and then the
Event Detector evaluation, all before anything of the rest of the stream;
and the chunks read by the loop are always an in-order prefix of the
stream, so host lines are processed strictly in emission order. -/
theorem c9_log_then_detect (exe line : List Char) (rest : List Chunk) (nid : Nat)
    (tasks : List Nat) (hne : line ≠ []) :
    (∃ tail, (hostLoop exe (some line :: rest) nid tasks).1
        = Ev.read (some line) :: Ev.logCall hostWho HOST_COLOR line
            :: Ev.detect (containsSub markerStr line) :: tail)
    ∧ ∀ chunks : List Chunk, ∃ k,
        readsOf (hostLoop exe chunks nid tasks).1 = chunks.take k := by
  constructor
  · cases hm : containsSub markerStr line with
    | false => exact ⟨(hostLoop exe rest nid tasks).1, by simp [hostLoop, hne, hm]⟩
    | true =>
      cases hr : findRest rColon line with
      | none => exact ⟨[Ev.indexErr], by simp [hostLoop, hne, hm, hr]⟩
      | some restTok =>
        exact ⟨Ev.taskNew nid (clientCmd exe (strip restTok))
                 :: (hostLoop exe rest (nid + 1) (tasks ++ [nid])).1,
               by simp [hostLoop, hne, hm, hr]⟩
  · intro chunks
    exact hostLoop_reads exe chunks nid tasks

/-- Witness for `c9_log_then_detect` at a trigger line. -/
theorem c9_log_then_detect_witness :
    (lineA ≠ [])
    ∧ ((∃ tail, (hostLoop debugPath [some lineA] 0 []).1
          = Ev.read (some lineA) :: Ev.logCall hostWho HOST_COLOR lineA
              :: Ev.detect (containsSub markerStr lineA) :: tail)
       ∧ ∀ chunks : List Chunk, ∃ k,
           readsOf (hostLoop debugPath chunks 0 []).1 = chunks.take k) :=
  ⟨by decide, c9_log_then_detect debugPath lineA [] 0 [] (by decide)⟩

/-! ### Claim C10 -/

/-- Claim C10: for every role label, color code and line ending in a
newline, the logger writes exactly the color code, the label
left-justified to width 8 (the label followed by spaces, total length
`max 8 (label length)`), the ANSI reset, one space, and the text
unchanged as the final segment — so the text's trailing newline is the
output's last character and no second newline is appended. -/
theorem c10_log_format (who color line : List Char) (h : line.getLast? = some '\n') :
    logOutput who color line = (color ++ pyLjust who 8 ++ ENDC ++ [' ']) ++ line
    ∧ (∃ n, pyLjust who 8 = who ++ List.replicate n ' ')
    ∧ (pyLjust who 8).length = max who.length 8
    ∧ (logOutput who color line).getLast? = some '\n' := by
  have hne : line ≠ [] := by
    intro hnil
    rw [hnil] at h
    simp at h
  refine ⟨by simp [logOutput], ⟨8 - who.length, rfl⟩, ?_, ?_⟩
  · simp only [pyLjust, List.length_append, List.length_replicate]
    omega
  · have : logOutput who color line = (color ++ pyLjust who 8 ++ ENDC ++ [' ']) ++ line := by
      simp [logOutput]
    rw [this, List.getLast?_append_of_ne_nil _ hne, h]

/-- Witness for `c10_log_format` at the host label and color. -/
theorem c10_log_format_witness :
    ("hi\n".data.getLast? = some '\n')
    ∧ (logOutput hostWho HOST_COLOR "hi\n".data
        = (HOST_COLOR ++ pyLjust hostWho 8 ++ ENDC ++ [' ']) ++ "hi\n".data
       ∧ (∃ n, pyLjust hostWho 8 = hostWho ++ List.replicate n ' ')
       ∧ (pyLjust hostWho 8).length = max hostWho.length 8
       ∧ (logOutput hostWho HOST_COLOR "hi\n".data).getLast? = some '\n') :=
  ⟨by decide, c10_log_format hostWho HOST_COLOR "hi\n".data (by decide)⟩
